import Mathlib

/-!
Verification development for the finance tracker (src/main.py).

The development shallowly embeds the transaction store (`load_data`,
`save_transaction`, the module-level data-file creation) and the upload
normalizer (`analyze_uploaded_file`), together with the reporting helpers
(`plot_summary`, `get_pdf_download`), and proves properties about them.

Modelling conventions:
* A pandas cell is a `Val`: missing (`na`, i.e. NaN/NaT), a string, a
  numeric value (`Rat`), or a calendar date.
* A pandas DataFrame is a column-name list plus positional rows
  (`DataFrame`); cell access past the end of a row reads as `na`,
  mirroring pandas' NaN padding of rectangular frames.
* `pd.to_numeric(errors="coerce")` is modelled by an executable decimal
  parser `parseRat` (whitespace, sign, digits, optional fraction, optional
  scientific exponent); failures give `na`.
* `pd.to_datetime(errors="coerce")` is modelled by `parseDate`
  (ISO `YYYY-MM-DD`); failures give `na` (NaT).
* The store CSV is a header plus rows of five raw string cells
  (`CsvRow`); reading a CSV turns an empty cell, or any of pandas'
  default NA tokens ("NA", "N/A", "NULL", "None", "nan", ...), into a
  missing value, exactly as `pd.read_csv` does.
* Exceptions caught by `try/except` are modelled with `Option`/`Except`
  and an explicit success flag where the failure originates in an
  external library (`doc.build`).
-/

/-- A pandas cell value: NaN/NaT, a string, a numeric, or a date. -/
inductive Val where
  | na : Val
  | str : String → Val
  | num : Rat → Val
  | date : Nat → Nat → Nat → Val
deriving DecidableEq, Repr

/-- Is the cell missing (NaN/NaT)? -/
def isNa : Val → Bool
  | Val.na => true
  | _ => false

/-- Digits of a numeral, folded to a natural number. -/
def digitsToNat (l : List Char) : Nat :=
  l.foldl (fun a c => a * 10 + (c.toNat - 48)) 0

/-- All characters are decimal digits. -/
def allDigits (l : List Char) : Bool := l.all Char.isDigit

/-- Whitespace accepted around a numeral by the pandas numeric parser. -/
def isWs (c : Char) : Bool := c = ' ' || c = '\t'

/-- Strip leading and trailing whitespace. -/
def stripWs (l : List Char) : List Char :=
  ((l.dropWhile isWs).reverse.dropWhile isWs).reverse

/-- Parse an exponent suffix `[sign]digits` (the part after `e`/`E`). -/
def parseExpPart (l : List Char) : Option Int :=
  match l with
  | '+' :: ds => if ds.isEmpty ∨ ¬ allDigits ds then none else some (digitsToNat ds : Int)
  | '-' :: ds => if ds.isEmpty ∨ ¬ allDigits ds then none else some (-(digitsToNat ds : Int))
  | ds => if ds.isEmpty ∨ ¬ allDigits ds then none else some (digitsToNat ds : Int)

/-- Parse an unsigned numeral `digits[.digits][(e|E)[sign]digits]` (at least
one mantissa digit). -/
def parseSci (l : List Char) : Option Rat :=
  let intPart := l.takeWhile Char.isDigit
  let rest := l.dropWhile Char.isDigit
  match rest with
  | [] => if intPart.isEmpty then none else some (digitsToNat intPart : Rat)
  | '.' :: rest2 =>
    let frac := rest2.takeWhile Char.isDigit
    let rest3 := rest2.dropWhile Char.isDigit
    if intPart.isEmpty ∧ frac.isEmpty then none
    else
      let mant := (digitsToNat intPart : Rat) +
        (digitsToNat frac : Rat) / ((10 : Rat) ^ frac.length)
      match rest3 with
      | [] => some mant
      | c :: rest4 =>
        if c = 'e' ∨ c = 'E' then
          (parseExpPart rest4).map (fun k => mant * (10 : Rat) ^ k)
        else none
  | c :: rest4 =>
    if (c = 'e' ∨ c = 'E') ∧ ¬ intPart.isEmpty then
      (parseExpPart rest4).map (fun k => (digitsToNat intPart : Rat) * (10 : Rat) ^ k)
    else none

/-- Numeric coercion of a string, as `pd.to_numeric(errors="coerce")` on one
cell: surrounding whitespace, an optional sign, and a decimal numeral with
optional fraction and optional scientific exponent (`1e3`, `1.5E-2`, ...);
anything else fails.  IEEE infinity spellings (`inf`, `Infinity`) denote
values that `Rat` cannot represent and lie outside the modeled numeric
domain; `NaN` spellings are already missing at the read stage (they are
default NA tokens). -/
def parseRat (s : String) : Option Rat :=
  match stripWs s.data with
  | '-' :: rest => (parseSci rest).map (fun q => -q)
  | '+' :: rest => parseSci rest
  | l => parseSci l

/-- Digit value of one character, if it is a digit. -/
def digitVal (c : Char) : Option Nat :=
  if c.isDigit then some (c.toNat - 48) else none

/-- Date coercion of a string, as `pd.to_datetime(errors="coerce")` on one
cell, restricted to ISO `YYYY-MM-DD`; anything else fails (NaT). -/
def parseDate (s : String) : Option (Nat × Nat × Nat) :=
  match s.data with
  | [y1, y2, y3, y4, h1, m1, m2, h2, d1, d2] =>
    if h1 = '-' ∧ h2 = '-' then
      match digitVal y1, digitVal y2, digitVal y3, digitVal y4,
            digitVal m1, digitVal m2, digitVal d1, digitVal d2 with
      | some a, some b, some c, some d, some e, some f, some g, some h =>
        let y := ((a * 10 + b) * 10 + c) * 10 + d
        let mo := e * 10 + f
        let da := g * 10 + h
        if 1 ≤ mo ∧ mo ≤ 12 ∧ 1 ≤ da ∧ da ≤ 31 then some (y, mo, da) else none
      | _, _, _, _, _, _, _, _ => none
    else none
  | _ => none

/-- Cell-wise `pd.to_numeric(errors="coerce")`: missing stays missing,
numerics stay, strings are parsed (failure gives NaN).  A date cell cannot
occur before coercion in the pipeline; it is sent to `na`. -/
def coerceNum : Val → Val
  | Val.na => Val.na
  | Val.num q => Val.num q
  | Val.str s =>
    match parseRat s with
    | some q => Val.num q
    | none => Val.na
  | Val.date _ _ _ => Val.na

/-- Cell-wise `pd.to_datetime(errors="coerce")`: missing stays missing (NaT),
strings are parsed, dates stay.  A numeric cell is interpreted by pandas as an
epoch timestamp and stays non-null; the exact instant is not observed by any
property, so the cell is kept as-is. -/
def coerceDate : Val → Val
  | Val.na => Val.na
  | Val.str s =>
    match parseDate s with
    | some t => Val.date t.1 t.2.1 t.2.2
    | none => Val.na
  | Val.num q => Val.num q
  | Val.date y m d => Val.date y m d

/-- ASCII lowercasing of one character, as Python `str.lower` on the
column names occurring here. -/
def lowerChar (c : Char) : Char :=
  if 65 ≤ c.toNat ∧ c.toNat ≤ 90 then Char.ofNat (c.toNat + 32) else c

/-- Lowercasing of a string (`df.columns.str.lower()`). -/
def lowerStr (s : String) : String := ⟨s.data.map lowerChar⟩

/-- `nthD d l n`: the `n`-th element of `l`, or `d` past the end. -/
def nthD {α : Type} (d : α) : List α → Nat → α
  | [], _ => d
  | a :: _, 0 => a
  | _ :: l, n + 1 => nthD d l n

/-- First index of a column name in a column list. -/
def colIdx : List String → String → Option Nat
  | [], _ => none
  | a :: l, c => if a = c then some 0 else (colIdx l c).map (· + 1)

/-- Replace the cell at an index (no-op past the end of the row). -/
def setAt (w : Val) : Nat → List Val → List Val
  | _, [] => []
  | 0, _ :: vs => w :: vs
  | n + 1, v :: vs => v :: setAt w n vs

/-- Apply a function to the cell at an index (no-op past the end). -/
def modAt (f : Val → Val) : Nat → List Val → List Val
  | _, [] => []
  | 0, v :: vs => f v :: vs
  | n + 1, v :: vs => v :: modAt f n vs

/-- Pad a row with missing cells up to a length. -/
def padTo : Nat → List Val → List Val
  | 0, r => r
  | n + 1, [] => Val.na :: padTo n []
  | n + 1, v :: vs => v :: padTo n vs

/-- A DataFrame: ordered column names and positional rows. -/
structure DataFrame where
  cols : List String
  rows : List (List Val)
deriving DecidableEq, Repr

/-- Cell of a row under a column name (missing column or short row reads
as NaN, as in a padded rectangular frame). -/
def getVal (df : DataFrame) (r : List Val) (c : String) : Val :=
  match colIdx df.cols c with
  | some i => nthD Val.na r i
  | none => Val.na

/-- `df.columns = df.columns.str.lower()`. -/
def lowerColsDF (df : DataFrame) : DataFrame :=
  ⟨df.cols.map lowerStr, df.rows⟩

/-- `df[c] = df[c].apply(f)` cell-wise on one existing column. -/
def mapCol (df : DataFrame) (c : String) (f : Val → Val) : DataFrame :=
  match colIdx df.cols c with
  | some i => ⟨df.cols, df.rows.map (modAt f i)⟩
  | none => df

/-- Keep predicate of `df.dropna(subset=cs)`: no missing cell under `cs`. -/
def keepRowB (df : DataFrame) (cs : List String) (r : List Val) : Bool :=
  cs.all (fun c => !(isNa (getVal df r c)))

/-- `df.dropna(subset=cs)`. -/
def dropnaSubset (df : DataFrame) (cs : List String) : DataFrame :=
  ⟨df.cols, df.rows.filter (keepRowB df cs)⟩

/-- `df.rename(columns=...)`, given as a renaming function on names. -/
def renameCols (df : DataFrame) (f : String → String) : DataFrame :=
  ⟨df.cols.map f, df.rows⟩

/-- `df[c] = <series computed row-wise by g>`: overwrite the column if it
exists, else append it as the last column. -/
def setColWith (df : DataFrame) (c : String) (g : List Val → Val) : DataFrame :=
  match colIdx df.cols c with
  | some i => ⟨df.cols, df.rows.map (fun r => setAt (g r) i (padTo df.cols.length r))⟩
  | none => ⟨df.cols ++ [c], df.rows.map (fun r => padTo df.cols.length r ++ [g r])⟩

/-- The renaming `{"date": "Date", "amount": "Amount"}`. -/
def canonRename (c : String) : String :=
  if c = "date" then "Date" else if c = "amount" then "Amount" else c

/-- The renaming `{"category": "Category"}`. -/
def catRename (c : String) : String :=
  if c = "category" then "Category" else c

/-- The lambda of `df["Type"] = df["Amount"].apply(...)`: `"Income" if
x >= 0 else "Expense"`.  On a non-numeric cell the Python comparison
`x >= 0` is falsy for NaN, giving `"Expense"`; such cells cannot occur
after the numeric coercion and drop. -/
def deriveType : Val → Val
  | Val.num q => if 0 ≤ q then Val.str "Income" else Val.str "Expense"
  | _ => Val.str "Expense"

/-- The error message of the schema check in `analyze_uploaded_file`. -/
def canonMsg : String := "Uploaded CSV must contain 'Date' and 'Amount' columns."

/-- Coercion stage of the normalizer: `df["date"] = pd.to_datetime(df["date"],
errors='coerce')` then `df["amount"] = pd.to_numeric(df["amount"],
errors='coerce')`. -/
def stageCoerce (df : DataFrame) : DataFrame :=
  mapCol (mapCol df "date" coerceDate) "amount" coerceNum

/-- `df.dropna(subset=["date", "amount"], inplace=True)`. -/
def stageDrop (df : DataFrame) : DataFrame :=
  dropnaSubset df ["date", "amount"]

/-- `df.rename(columns={"date": "Date", "amount": "Amount"}, inplace=True)`. -/
def stageRename (df : DataFrame) : DataFrame :=
  renameCols df canonRename

/-- `df["Type"] = df["Amount"].apply(lambda x: "Income" if x >= 0 else "Expense")`. -/
def stageType (df : DataFrame) : DataFrame :=
  setColWith df "Type" (fun r => deriveType (getVal df r "Amount"))

/-- The category step: default `"Uncategorized"` when absent, else rename
`category` to `Category`. -/
def stageCat (df : DataFrame) : DataFrame :=
  if "category" ∈ df.cols then renameCols df catRename
  else setColWith df "Category" (fun _ => Val.str "Uncategorized")

/-- The description step: default `""` when absent; a present `description`
column is left untouched. -/
def stageDesc (df : DataFrame) : DataFrame :=
  if "description" ∈ df.cols then df
  else setColWith df "Description" (fun _ => Val.str "")

/-- The normalizer `analyze_uploaded_file` (src/main.py lines 107-131):
lowercase the column names, require `date` and `amount`, coerce, drop
rows failing either coercion, rename to canonical casing, derive `Type`,
then fill in `Category` and `Description`.  The schema failure is the
`st.error` early return, modelled as `Except.error`. -/
def analyze_uploaded_file (raw : DataFrame) : Except String DataFrame :=
  if "date" ∈ (lowerColsDF raw).cols ∧ "amount" ∈ (lowerColsDF raw).cols then
    Except.ok
      (stageDesc (stageCat (stageType (stageRename (stageDrop (stageCoerce (lowerColsDF raw)))))))
  else
    Except.error canonMsg

/-! ## The store (src/main.py lines 14-34) -/

/-- The canonical header `["Date", "Type", "Category", "Description", "Amount"]`. -/
def canonCols : List String := ["Date", "Type", "Category", "Description", "Amount"]

/-- One line of the store CSV: five raw textual cells. -/
structure CsvRow where
  date : String
  type : String
  category : String
  description : String
  amount : String
deriving DecidableEq, Repr

/-- The store file on disk: its header line and its data lines. -/
structure StoreFile where
  header : List String
  rows : List CsvRow
deriving DecidableEq, Repr

/-- The default NA tokens of `pd.read_csv` (`keep_default_na=True`): any
field equal to one of these reads back as NaN. -/
def naTokens : List String :=
  ["", "#N/A", "#N/A N/A", "#NA", "-1.#IND", "-1.#QNAN", "-NaN", "-nan",
   "1.#IND", "1.#QNAN", "<NA>", "N/A", "NA", "NULL", "NaN", "None",
   "n/a", "nan", "null"]

/-- Reading one CSV cell: an empty field or any default NA token reads as
NaN. -/
def readCell (s : String) : Option String :=
  if s ∈ naTokens then none else some s

/-- A store row after `pd.read_csv`: each cell present or missing. -/
structure ReadRow where
  date : Option String
  type : Option String
  category : Option String
  description : Option String
  amount : Option String
deriving DecidableEq, Repr

/-- A store row after `pd.to_numeric` on `Amount`. -/
structure NumRow where
  date : Option String
  type : Option String
  category : Option String
  description : Option String
  amount : Option Rat
deriving DecidableEq, Repr

/-- `pd.read_csv` on one store line. -/
def readCsvRow (r : CsvRow) : ReadRow :=
  ⟨readCell r.date, readCell r.type, readCell r.category, readCell r.description,
   readCell r.amount⟩

/-- `df["Amount"] = pd.to_numeric(df["Amount"], errors="coerce")` on one row. -/
def coerceAmount (r : ReadRow) : NumRow :=
  ⟨r.date, r.type, r.category, r.description, r.amount.bind parseRat⟩

/-- Keep predicate of `df.dropna()`: every one of the five cells present. -/
def rowComplete (r : NumRow) : Bool :=
  r.date.isSome && r.type.isSome && r.category.isSome && r.description.isSome &&
    r.amount.isSome

/-- `load_data` (src/main.py lines 22-28).  The input is the outcome of
reading the store: `none` when the read raises (missing or corrupt file).
A present file whose header is not the canonical one makes the
`parse_dates=["Date"]` / `df["Amount"]` accesses raise, which the bare
`except` also turns into the empty canonical table.  On success: read the
rows (empty cells become NaN), coerce `Amount` to numeric, and `dropna()`
every row with any missing cell. -/
def load_data (file : Option StoreFile) : List String × List NumRow :=
  match file with
  | none => (canonCols, [])
  | some f =>
    if f.header = canonCols then
      (canonCols, ((f.rows.map readCsvRow).map coerceAmount).filter rowComplete)
    else
      (canonCols, [])

/-- `save_transaction` (src/main.py lines 31-34): serialize one record and
append it as a new line; the five arguments are the cells as `to_csv`
writes them. -/
def save_transaction (date t_type category description amount : String)
    (file : List CsvRow) : List CsvRow :=
  file ++ [⟨date, t_type, category, description, amount⟩]

/-- The module-level data-file creation (src/main.py lines 17-19): if the
backing file does not exist, create it with the canonical header and no
data rows; otherwise leave the file as it is. -/
def initDataFile : Option StoreFile → StoreFile
  | none => ⟨canonCols, []⟩
  | some f => f

/-! ## Reporting (src/main.py lines 37-104) -/

/-- Key ordering used by pandas `groupby` (keys of one group-by are
homogeneous; the cross-constructor cases are arbitrary). -/
def valLe : Val → Val → Bool
  | Val.na, _ => true
  | _, Val.na => false
  | Val.str a, Val.str b => a ≤ b
  | Val.str _, _ => true
  | _, Val.str _ => false
  | Val.num a, Val.num b => a ≤ b
  | Val.num _, _ => true
  | _, Val.num _ => false
  | Val.date y m d, Val.date y2 m2 d2 =>
    if y = y2 then (if m = m2 then d ≤ d2 else m ≤ m2) else y ≤ y2

/-- Insertion into a sorted list. -/
def insertBy {α : Type} (le : α → α → Bool) (v : α) : List α → List α
  | [] => [v]
  | w :: ws => if le v w then v :: w :: ws else w :: insertBy le v ws

/-- Insertion sort. -/
def sortBy {α : Type} (le : α → α → Bool) (l : List α) : List α :=
  l.foldr (insertBy le) []

/-- Sum of the numeric `Amount` cells of some rows (`groupby(...).sum()`
skips missing values). -/
def sumAmount (df : DataFrame) (rows : List (List Val)) : Rat :=
  rows.foldl
    (fun a r =>
      match getVal df r "Amount" with
      | Val.num q => a + q
      | _ => a)
    0

/-- `df.groupby(["Date", "Type"])["Amount"].sum()`: one `(key, sum)` pair
per distinct non-missing `(Date, Type)` pair, keys sorted. -/
def trendAgg (df : DataFrame) : List ((Val × Val) × Rat) :=
  let keys := ((df.rows.map (fun r => (getVal df r "Date", getVal df r "Type"))).filter
    (fun p => !(isNa p.1) && !(isNa p.2))).dedup
  (sortBy (fun a b => if a.1 = b.1 then valLe a.2 b.2 else valLe a.1 b.1) keys).map
    (fun k => (k, sumAmount df (df.rows.filter
      (fun r => (getVal df r "Date", getVal df r "Type") = k))))

/-- `df.groupby("Category")["Amount"].sum()`: one `(key, sum)` pair per
distinct non-missing `Category`, keys sorted. -/
def catAgg (df : DataFrame) : List (Val × Rat) :=
  let keys := ((df.rows.map (fun r => getVal df r "Category")).filter
    (fun v => !(isNa v))).dedup
  (sortBy valLe keys).map
    (fun k => (k, sumAmount df (df.rows.filter (fun r => getVal df r "Category" = k))))

/-- `plot_summary` (src/main.py lines 37-54): on an empty table return
no figures; otherwise always produce the trend aggregation, and produce
the category aggregation only if a `Category` column exists and is not
entirely null. -/
def plot_summary (df : DataFrame) :
    Option (List ((Val × Val) × Rat)) × Option (List (Val × Rat)) :=
  if df.rows.isEmpty then (none, none)
  else
    (some (trendAgg df),
     if "Category" ∈ df.cols ∧ ¬ (df.rows.all (fun r => isNa (getVal df r "Category")) = true)
     then some (catAgg df)
     else none)

/-- Textual rendering of a cell in the PDF record lines. -/
def valText : Val → String
  | Val.na => "nan"
  | Val.str s => s
  | Val.num q => toString q.num ++ "/" ++ toString q.den
  | Val.date y m d => toString y ++ "-" ++ toString m ++ "-" ++ toString d

/-- One record line of the PDF body. -/
def rowLine (df : DataFrame) (r : List Val) : String :=
  valText (getVal df r "Date") ++ " | " ++ valText (getVal df r "Type") ++ " | " ++
    valText (getVal df r "Category") ++ " | " ++ valText (getVal df r "Description") ++
    " | " ++ valText (getVal df r "Amount")

/-- Result of one `get_pdf_download` call: the built document (its title and
record lines), if the build succeeded, and the temporary chart image files
still on disk when the call completes (normally or by raising). -/
structure PdfOutcome where
  pdf : Option (List String)
  leftover : List String
deriving DecidableEq, Repr

/-- `get_pdf_download` (src/main.py lines 70-104).  The figures are those of
`plot_summary`; a present figure writes its temporary image file
(`trend_plot.png` / `pie_chart.png`).  `buildOk` states whether the external
`doc.build(elements)` call succeeds: the `os.remove` calls are only reached
after `doc.build` returns, so on a raising build the written images stay. -/
def get_pdf_download (data : DataFrame) (buildOk : Bool) : PdfOutcome :=
  let figs := plot_summary data
  let written :=
    (if (figs.1).isSome then ["trend_plot.png"] else []) ++
      (if (figs.2).isSome then ["pie_chart.png"] else [])
  if buildOk then
    { pdf := some ("Finance Report" :: data.rows.map (rowLine data)), leftover := [] }
  else
    { pdf := none, leftover := written }

/-! ## Substring occurrence (for the wording "names the missing column(s)") -/

/-- `leadsList n l`: `n` is an initial run of `l`. -/
def leadsList : List Char → List Char → Bool
  | [], _ => true
  | _ :: _, [] => false
  | a :: as, b :: bs => a == b && leadsList as bs

/-- `occursList n l`: `n` occurs contiguously somewhere in `l`. -/
def occursList (n : List Char) : List Char → Bool
  | [] => leadsList n []
  | c :: t => leadsList n (c :: t) || occursList n t

/-- `occursStr n h`: the string `n` occurs in the string `h`. -/
def occursStr (n h : String) : Bool := occursList n.data h.data

/-! ## Basic lemmas about the row/column primitives -/

theorem nthD_append_left {α : Type} (d : α) (l s : List α) (n : Nat) (h : n < l.length) :
    nthD d (l ++ s) n = nthD d l n := by
  induction l generalizing n with
  | nil => simp at h
  | cons a t ih =>
    cases n with
    | zero => rfl
    | succ m =>
      simp only [List.cons_append, nthD]
      exact ih m (by simp only [List.length_cons] at h; omega)

theorem nthD_append_right_self {α : Type} (d : α) (l : List α) (x : α) :
    nthD d (l ++ [x]) l.length = x := by
  induction l with
  | nil => rfl
  | cons a t ih => simpa using ih

theorem nthD_map {α β : Type} (d : α) (e : β) (f : α → β) (l : List α) (n : Nat)
    (h : n < l.length) : nthD e (l.map f) n = f (nthD d l n) := by
  induction l generalizing n with
  | nil => simp at h
  | cons a t ih =>
    cases n with
    | zero => rfl
    | succ m =>
      simp only [List.map_cons, nthD]
      exact ih m (by simp only [List.length_cons] at h; omega)

theorem nthD_mem {α : Type} (d : α) (l : List α) (n : Nat) (h : n < l.length) :
    nthD d l n ∈ l := by
  induction l generalizing n with
  | nil => simp at h
  | cons a t ih =>
    cases n with
    | zero => exact List.mem_cons_self a t
    | succ m =>
      exact List.mem_cons_of_mem a (ih m (by simp only [List.length_cons] at h; omega))

theorem mem_nthD {α : Type} (d : α) (l : List α) (x : α) (h : x ∈ l) :
    ∃ n, n < l.length ∧ nthD d l n = x := by
  induction l with
  | nil => simp at h
  | cons a t ih =>
    rcases List.mem_cons.mp h with h1 | h2
    · exact ⟨0, by simp, h1.symm⟩
    · obtain ⟨n, hn, he⟩ := ih h2
      exact ⟨n + 1, by simp only [List.length_cons]; omega, he⟩

theorem padTo_nthD (n : Nat) (r : List Val) (i : Nat) :
    nthD Val.na (padTo n r) i = nthD Val.na r i := by
  induction n generalizing r i with
  | zero => rfl
  | succ m ih =>
    cases r with
    | nil =>
      cases i with
      | zero => rfl
      | succ j => simpa [padTo, nthD] using ih [] j
    | cons v vs =>
      cases i with
      | zero => rfl
      | succ j => simpa [padTo, nthD] using ih vs j

theorem padTo_length (n : Nat) (r : List Val) : (padTo n r).length = max n r.length := by
  induction n generalizing r with
  | zero => simp [padTo]
  | succ m ih =>
    cases r with
    | nil => simp [padTo, ih]
    | cons v vs => simp only [padTo, List.length_cons, ih]; omega

theorem setAt_nthD_self (w : Val) (i : Nat) (r : List Val) (h : i < r.length) :
    nthD Val.na (setAt w i r) i = w := by
  induction r generalizing i with
  | nil => simp at h
  | cons v vs ih =>
    cases i with
    | zero => rfl
    | succ j =>
      simp only [setAt, nthD]
      exact ih j (by simp only [List.length_cons] at h; omega)

theorem setAt_nthD_ne (w : Val) (i j : Nat) (r : List Val) (h : j ≠ i) :
    nthD Val.na (setAt w i r) j = nthD Val.na r j := by
  induction r generalizing i j with
  | nil => cases i <;> rfl
  | cons v vs ih =>
    cases i with
    | zero =>
      cases j with
      | zero => exact absurd rfl h
      | succ m => rfl
    | succ n =>
      cases j with
      | zero => rfl
      | succ m => exact ih n m (by omega)

theorem modAt_nthD_self (f : Val → Val) (i : Nat) (r : List Val) (hf : f Val.na = Val.na) :
    nthD Val.na (modAt f i r) i = f (nthD Val.na r i) := by
  induction r generalizing i with
  | nil => simp [modAt, nthD, hf]
  | cons v vs ih =>
    cases i with
    | zero => rfl
    | succ j => exact ih j

theorem modAt_nthD_ne (f : Val → Val) (i j : Nat) (r : List Val) (h : j ≠ i) :
    nthD Val.na (modAt f i r) j = nthD Val.na r j := by
  induction r generalizing i j with
  | nil => cases i <;> rfl
  | cons v vs ih =>
    cases i with
    | zero =>
      cases j with
      | zero => exact absurd rfl h
      | succ m => rfl
    | succ n =>
      cases j with
      | zero => rfl
      | succ m => exact ih n m (by omega)

theorem modAt_length (f : Val → Val) (i : Nat) (r : List Val) :
    (modAt f i r).length = r.length := by
  induction r generalizing i with
  | nil => cases i <;> rfl
  | cons v vs ih =>
    cases i with
    | zero => rfl
    | succ j => simp only [modAt, List.length_cons, ih]

theorem colIdx_lt (cols : List String) (c : String) (i : Nat) (h : colIdx cols c = some i) :
    i < cols.length := by
  induction cols generalizing i with
  | nil => simp [colIdx] at h
  | cons a l ih =>
    simp only [colIdx] at h
    split at h
    · cases h; simp
    · obtain ⟨j, hj, he⟩ := Option.map_eq_some'.mp h
      subst he
      simp only [List.length_cons]
      exact Nat.succ_lt_succ (ih j hj)

theorem colIdx_nthD (cols : List String) (c : String) (i : Nat) (h : colIdx cols c = some i) :
    nthD "" cols i = c := by
  induction cols generalizing i with
  | nil => simp [colIdx] at h
  | cons a l ih =>
    simp only [colIdx] at h
    split at h
    next he => cases h; exact he
    next =>
      obtain ⟨j, hj, he⟩ := Option.map_eq_some'.mp h
      subst he
      exact ih j hj

theorem colIdx_eq_none (cols : List String) (c : String) :
    colIdx cols c = none ↔ c ∉ cols := by
  induction cols with
  | nil => simp [colIdx]
  | cons a l ih =>
    simp only [colIdx]
    split
    next he => subst he; simp
    next he =>
      rw [Option.map_eq_none', ih, List.mem_cons]
      constructor
      · intro hl hor
        rcases hor with h1 | h2
        · exact he h1.symm
        · exact hl h2
      · intro hn hl
        exact hn (Or.inr hl)

theorem colIdx_of_mem (cols : List String) (c : String) (h : c ∈ cols) :
    ∃ i, colIdx cols c = some i := by
  cases hc : colIdx cols c with
  | none => exact absurd ((colIdx_eq_none cols c).mp hc) (by simpa using h)
  | some i => exact ⟨i, rfl⟩

theorem colIdx_ne (cols : List String) (a b : String) (i j : Nat)
    (h1 : colIdx cols a = some i) (h2 : colIdx cols b = some j) (hab : a ≠ b) : i ≠ j := by
  intro he
  subst he
  exact hab (by rw [← colIdx_nthD cols a i h1, colIdx_nthD cols b i h2])

theorem colIdx_map_iff (cols : List String) (f : String → String) (a b : String)
    (h : ∀ x ∈ cols, (f x = b ↔ x = a)) : colIdx (cols.map f) b = colIdx cols a := by
  induction cols with
  | nil => rfl
  | cons x l ih =>
    have hx := h x (List.mem_cons_self x l)
    simp only [List.map_cons, colIdx]
    by_cases hxa : x = a
    · rw [if_pos (hx.mpr hxa), if_pos hxa]
    · rw [if_neg (fun hfb => hxa (hx.mp hfb)), if_neg hxa,
        ih (fun y hy => h y (List.mem_cons_of_mem x hy))]

theorem colIdx_append_ne (cols : List String) (c d : String) (h : c ≠ d) :
    colIdx (cols ++ [d]) c = colIdx cols c := by
  induction cols with
  | nil =>
    simp only [List.nil_append, colIdx]
    rw [if_neg (fun he => h he.symm)]
    rfl
  | cons a l ih => simp only [List.cons_append, colIdx, List.append_eq, ih]

theorem colIdx_append_of_some (cols l2 : List String) (c : String) (i : Nat)
    (h : colIdx cols c = some i) : colIdx (cols ++ l2) c = some i := by
  induction cols generalizing i with
  | nil => simp [colIdx] at h
  | cons a l ih =>
    simp only [colIdx, List.cons_append, List.append_eq] at h ⊢
    split at h
    next he => rw [if_pos he]; exact h
    next he =>
      rw [if_neg he]
      obtain ⟨j, hj, hji⟩ := Option.map_eq_some'.mp h
      rw [ih j hj]
      exact hji ▸ rfl

theorem colIdx_append_self (cols : List String) (c : String) (h : colIdx cols c = none) :
    colIdx (cols ++ [c]) c = some cols.length := by
  induction cols with
  | nil => simp [colIdx]
  | cons a l ih =>
    simp only [colIdx] at h
    split at h
    · cases h
    next he =>
      simp only [List.cons_append, colIdx, List.append_eq, if_neg he,
        Option.map_eq_none'] at h ⊢
      rw [ih h]
      simp

/-! ## Lowercased names never equal a canonically-cased name -/

theorem ofNat_toNat_small (n : Nat) (h1 : 65 ≤ n) (h2 : n ≤ 90) :
    (Char.ofNat (n + 32)).toNat = n + 32 := by
  interval_cases n <;> decide

theorem lowerChar_not_upper (c : Char) (k : Nat) (h1 : 65 ≤ k) (h2 : k ≤ 90) :
    (lowerChar c).toNat ≠ k := by
  unfold lowerChar
  split
  next h => rw [ofNat_toNat_small c.toNat h.1 h.2]; omega
  next h =>
    intro hk
    exact h ⟨by omega, by omega⟩

theorem lowerStr_ne (s t : String) (c : Char) (hc : c ∈ t.data)
    (h1 : 65 ≤ c.toNat) (h2 : c.toNat ≤ 90) : lowerStr s ≠ t := by
  intro he
  have hd : t.data = s.data.map lowerChar := by rw [← he]; rfl
  rw [hd] at hc
  obtain ⟨a, _, ha⟩ := List.mem_map.mp hc
  exact lowerChar_not_upper a c.toNat h1 h2 (by rw [ha])

theorem lower_ne_Date (s : String) : lowerStr s ≠ "Date" :=
  lowerStr_ne s "Date" 'D' (by decide) (by decide) (by decide)

theorem lower_ne_Amount (s : String) : lowerStr s ≠ "Amount" :=
  lowerStr_ne s "Amount" 'A' (by decide) (by decide) (by decide)

theorem lower_ne_Type (s : String) : lowerStr s ≠ "Type" :=
  lowerStr_ne s "Type" 'T' (by decide) (by decide) (by decide)

theorem lower_ne_Category (s : String) : lowerStr s ≠ "Category" :=
  lowerStr_ne s "Category" 'C' (by decide) (by decide) (by decide)

theorem lower_ne_Description (s : String) : lowerStr s ≠ "Description" :=
  lowerStr_ne s "Description" 'D' (by decide) (by decide) (by decide)

/-! ## Store-side helper lemmas -/

theorem naTokens_parseRat : ∀ s ∈ naTokens, parseRat s = none := by decide

theorem readCell_isSome (s : String) :
    (readCell s).isSome = !(decide (s ∈ naTokens)) := by
  unfold readCell
  by_cases h : s ∈ naTokens <;> simp [h]

theorem readCell_bind_parse (s : String) :
    ((readCell s).bind parseRat).isSome = (parseRat s).isSome := by
  unfold readCell
  by_cases h : s ∈ naTokens
  · rw [if_pos h]
    simp only [Option.none_bind, Option.isSome_none]
    rw [naTokens_parseRat s h]
    rfl
  · rw [if_neg h]
    rfl

/-- The rows `load_data` keeps: no cell reads as NaN (empty or a default
NA token) and the `Amount` text is numeric. -/
def storeRowKeptB (r : CsvRow) : Bool :=
  !(decide (r.date ∈ naTokens)) && !(decide (r.type ∈ naTokens)) &&
    !(decide (r.category ∈ naTokens)) && !(decide (r.description ∈ naTokens)) &&
    (parseRat r.amount).isSome

theorem kept_pointwise (r : CsvRow) :
    rowComplete (coerceAmount (readCsvRow r)) = storeRowKeptB r := by
  simp only [rowComplete, coerceAmount, readCsvRow, storeRowKeptB, readCell_isSome,
    readCell_bind_parse]

theorem length_filter_map {α β : Type} (f : α → β) (p : β → Bool) (l : List α) :
    ((l.map f).filter p).length = (l.filter (fun x => p (f x))).length := by
  induction l with
  | nil => rfl
  | cons a t ih =>
    simp only [List.map_cons, List.filter_cons]
    by_cases h : p (f a) <;> simp [h, ih]

theorem length_filter_split {α : Type} (p : α → Bool) (l : List α) :
    (l.filter p).length + (l.filter (fun x => !(p x))).length = l.length := by
  induction l with
  | nil => rfl
  | cons a t ih =>
    simp only [List.filter_cons]
    by_cases h : p a <;> simp [h, List.length_cons, ← ih] <;> omega

/-! ## Claim C7: store initialization is idempotent -/

/-- C7: if the backing file does not exist, the module-level initialization
creates it with the canonical header row and no data rows, and running it
again (any number of times) never alters an existing populated store file. -/
theorem C7_init_idempotent :
    initDataFile none = ⟨canonCols, []⟩ ∧
    (∀ f : StoreFile, initDataFile (some f) = f) ∧
    (∀ o : Option StoreFile, initDataFile (some (initDataFile o)) = initDataFile o) :=
  ⟨rfl, fun _ => rfl, fun o => by cases o <;> rfl⟩

/-! ## Claim C5: load_data degrades to the canonical empty table -/

/-- C5: `load_data` is a total function (it never raises); on a read failure
(missing file, or a corrupt file, modelled by a header that is not the
canonical one, which makes the `parse_dates` / `Amount` accesses raise into
the bare `except`) it returns the empty table with the canonical
five-column schema, and every result carries that schema. -/
theorem C5_read_failure_empty_table :
    load_data none = (canonCols, []) ∧
    (∀ f : StoreFile, (load_data (some f)).1 = canonCols) ∧
    (∀ f : StoreFile, f.header ≠ canonCols → load_data (some f) = (canonCols, [])) := by
  refine ⟨rfl, fun f => ?_, fun f h => ?_⟩
  · simp only [load_data]
    split <;> rfl
  · simp only [load_data]
    rw [if_neg h]

theorem C5_read_failure_empty_table_witness :
    (⟨["Wrong"], []⟩ : StoreFile).header ≠ canonCols ∧
      load_data (some ⟨["Wrong"], []⟩) = (canonCols, []) :=
  ⟨by decide, C5_read_failure_empty_table.2.2 ⟨["Wrong"], []⟩ (by decide)⟩

/-! ## Claim C10: every loaded row is fully non-null -/

/-- C10: every row of the table `load_data` returns is non-null in all five
fields: `dropna()` removes a row with a missing value in any column (for
example a `Category` or `Description` stored as an empty cell), not only
rows whose `Amount` fails numeric coercion. -/
theorem C10_loaded_rows_nonnull (f : StoreFile) (p : NumRow)
    (hp : p ∈ (load_data (some f)).2) :
    p.date.isSome ∧ p.type.isSome ∧ p.category.isSome ∧ p.description.isSome ∧
      p.amount.isSome := by
  simp only [load_data] at hp
  split at hp
  · have hm : p ∈ ((f.rows.map readCsvRow).map coerceAmount).filter rowComplete := hp
    have := (List.mem_filter.mp hm).2
    simp only [rowComplete, Bool.and_eq_true] at this
    exact ⟨this.1.1.1.1, this.1.1.1.2, this.1.1.2, this.1.2, this.2⟩
  · simp at hp

theorem C10_loaded_rows_nonnull_witness :
    (⟨some "2024-01-01", some "Income", some "Food", some "x", some (5 : Rat)⟩ : NumRow) ∈
        (load_data (some ⟨canonCols, [⟨"2024-01-01", "Income", "Food", "x", "5"⟩]⟩)).2 ∧
      ((some "2024-01-01" : Option String).isSome ∧ (some "Income" : Option String).isSome ∧
        (some "Food" : Option String).isSome ∧ (some "x" : Option String).isSome ∧
        (some (5 : Rat)).isSome) :=
  ⟨by decide,
   C10_loaded_rows_nonnull ⟨canonCols, [⟨"2024-01-01", "Income", "Food", "x", "5"⟩]⟩
     ⟨some "2024-01-01", some "Income", some "Food", some "x", some (5 : Rat)⟩ (by decide)⟩

/-! ## Claim C1 (corrected): round-trip through the store -/

/-- C1 as stated is false: appending the spec's own example record
`{Date=2024-01-01, Type=Income, Category=Salary, Description="", Amount=1000.00}`
and loading yields an empty table, not a table containing the record —
`to_csv` writes the empty `Description` as an empty field, `read_csv` reads
it back as NaN, and `dropna()` then discards the whole row. -/
theorem C1_counterexample :
    (load_data (some ⟨canonCols,
        save_transaction "2024-01-01" "Income" "Salary" "" "1000.0" []⟩)).2 = [] := by
  decide

/-- C1 amended: the round-trip holds for every record none of whose
serialized cells is one of `read_csv`'s default NA tokens (the empty
string, `"NA"`, `"None"`, ...) and whose serialized `Amount` is numeric —
appending such a record and loading yields the previous table with exactly
that record appended, with identical field values (the `Amount` text parsed
to its numeric value). -/
theorem C1_round_trip (file : List CsvRow) (d t c de a : String) (q : Rat)
    (hd : d ∉ naTokens) (ht : t ∉ naTokens) (hc : c ∉ naTokens) (hde : de ∉ naTokens)
    (ha : parseRat a = some q) :
    (load_data (some ⟨canonCols, save_transaction d t c de a file⟩)).2 =
      (load_data (some ⟨canonCols, file⟩)).2 ++
        [⟨some d, some t, some c, some de, some q⟩] := by
  have hane : a ∉ naTokens := by
    intro h
    rw [naTokens_parseRat a h] at ha
    exact Option.noConfusion ha
  have r1 : readCell d = some d := if_neg hd
  have r2 : readCell t = some t := if_neg ht
  have r3 : readCell c = some c := if_neg hc
  have r4 : readCell de = some de := if_neg hde
  have r5 : readCell a = some a := if_neg hane
  simp only [load_data, save_transaction, if_pos rfl]
  rw [List.map_append, List.map_append, List.filter_append]
  simp only [List.map_cons, List.map_nil, readCsvRow, coerceAmount, r1, r2, r3, r4, r5,
    Option.some_bind, ha, List.filter_cons, List.filter_nil]
  rfl

theorem C1_round_trip_witness :
    ("2024-01-01" : String) ∉ naTokens ∧ ("Income" : String) ∉ naTokens ∧
      ("Salary" : String) ∉ naTokens ∧
      ("Bonus" : String) ∉ naTokens ∧ parseRat "1000" = some 1000 ∧
      (load_data (some ⟨canonCols,
          save_transaction "2024-01-01" "Income" "Salary" "Bonus" "1000" []⟩)).2 =
        (load_data (some ⟨canonCols, []⟩)).2 ++
          [⟨some "2024-01-01", some "Income", some "Salary", some "Bonus", some (1000 : Rat)⟩] :=
  ⟨by decide, by decide, by decide, by decide, by decide,
   C1_round_trip [] "2024-01-01" "Income" "Salary" "Bonus" "1000" 1000
     (by decide) (by decide) (by decide) (by decide) (by decide)⟩

/-! ## Claim C2 (corrected): which rows load_data drops -/

/-- A store row whose `Amount` cell fails numeric coercion (the rows the
claim says are the only dropped ones). -/
def amountBadB (r : CsvRow) : Bool := ((readCell r.amount).bind parseRat).isNone

/-- C2 as stated is false: a row with a numeric `Amount` but an empty
`Description` cell is also dropped, so the returned row count (0) is not
the total (1) minus the amount-invalid count (0). -/
theorem C2_counterexample :
    ¬ ((load_data (some ⟨canonCols,
          [⟨"2024-01-01", "Income", "Salary", "", "1000.0"⟩]⟩)).2.length =
        ([⟨"2024-01-01", "Income", "Salary", "", "1000.0"⟩] : List CsvRow).length -
          (([⟨"2024-01-01", "Income", "Salary", "", "1000.0"⟩] : List CsvRow).filter
            amountBadB).length) := by
  decide

/-- C2 amended: the returned row count equals the total number of data rows
minus the number of rows that have any cell reading back as NaN (empty or
one of `read_csv`'s default NA tokens) or a non-numeric `Amount`
(`dropna()` drops on any missing field, not only on a failed `Amount`
coercion). -/
theorem C2_drop_count (rows : List CsvRow) :
    (load_data (some ⟨canonCols, rows⟩)).2.length =
      rows.length - (rows.filter (fun r => !(storeRowKeptB r))).length := by
  have hmain : (load_data (some ⟨canonCols, rows⟩)).2.length =
      (rows.filter storeRowKeptB).length := by
    have h0 : load_data (some ⟨canonCols, rows⟩) =
        (canonCols, ((rows.map readCsvRow).map coerceAmount).filter rowComplete) := by
      simp [load_data]
    rw [h0, List.map_map, length_filter_map]
    simp only [Function.comp_apply]
    exact congrArg List.length (List.filter_congr (fun r _ => kept_pointwise r))
  have hsplit := length_filter_split storeRowKeptB rows
  omega

/-! ## Claim C8 (corrected): temporary image cleanup in get_pdf_download -/

/-- C8 as stated is false: when the external `doc.build` raises, the
`os.remove` calls (which only come after it) are never reached and the
written chart images remain on disk. -/
theorem C8_counterexample :
    (get_pdf_download
        ⟨canonCols, [[Val.date 2024 1 1, Val.str "Income", Val.str "Food", Val.str "x",
          Val.num 5]]⟩ false).leftover ≠ [] := by
  decide

/-- C8 amended: the temporary chart images are deleted before the call
completes exactly on the success path (or when no image was written at all,
i.e. the input table is empty); on a failing `doc.build` with a non-empty
table they are left behind. -/
theorem C8_cleanup (data : DataFrame) (ok : Bool) :
    (get_pdf_download data ok).leftover = [] ↔ (ok = true ∨ data.rows = []) := by
  cases ok with
  | true => simp [get_pdf_download]
  | false =>
    simp only [get_pdf_download, Bool.false_eq_true, if_false, false_or]
    by_cases h : data.rows.isEmpty
    · rw [plot_summary, if_pos h]
      simp only [Option.isSome_none, Bool.false_eq_true, if_false, List.append_nil]
      simpa using List.isEmpty_iff.mp h
    · rw [plot_summary, if_neg h]
      simp only [Option.isSome_some, if_true]
      constructor
      · intro he
        exact absurd he (by simp)
      · intro he
        exact absurd (List.isEmpty_iff.mpr he) h

/-! ## Claim C9: conditional category aggregation -/

/-- C9: for every non-empty table, `plot_summary` produces the category
aggregation (sum of `Amount` grouped by `Category`) exactly when some row
has a non-null `Category` value; with the column absent or entirely null it
is omitted. -/
theorem C9_category_aggregation (df : DataFrame) (h : df.rows ≠ []) :
    (plot_summary df).2.isSome ↔ ∃ r ∈ df.rows, getVal df r "Category" ≠ Val.na := by
  unfold plot_summary
  rw [if_neg (by simpa using fun he => h (List.isEmpty_iff.mp he))]
  split
  next hcond =>
    simp only [Option.isSome_some, true_iff]
    have hall := hcond.2
    rw [List.all_eq_true] at hall
    push_neg at hall
    obtain ⟨r, hr, hna⟩ := hall
    refine ⟨r, hr, fun he => hna ?_⟩
    rw [he]
    rfl
  next hcond =>
    simp only [Option.isSome_none, Bool.false_eq_true, false_iff]
    intro ⟨r, hr, hne⟩
    apply hcond
    have hmem : "Category" ∈ df.cols := by
      by_contra hnm
      apply hne
      unfold getVal
      rw [(colIdx_eq_none df.cols "Category").mpr hnm]
    refine ⟨hmem, fun hall => ?_⟩
    rw [List.all_eq_true] at hall
    have := hall r hr
    cases hv : getVal df r "Category" with
    | na => exact hne hv
    | str s => rw [hv] at this; exact Bool.noConfusion this
    | num q => rw [hv] at this; exact Bool.noConfusion this
    | date y m d => rw [hv] at this; exact Bool.noConfusion this

theorem C9_category_aggregation_witness :
    (⟨canonCols, [[Val.date 2024 1 1, Val.str "Income", Val.str "Food", Val.str "x",
        Val.num 5]]⟩ : DataFrame).rows ≠ [] ∧
      ((plot_summary ⟨canonCols, [[Val.date 2024 1 1, Val.str "Income", Val.str "Food",
          Val.str "x", Val.num 5]]⟩).2.isSome ↔
        ∃ r ∈ (⟨canonCols, [[Val.date 2024 1 1, Val.str "Income", Val.str "Food",
          Val.str "x", Val.num 5]]⟩ : DataFrame).rows,
          getVal ⟨canonCols, [[Val.date 2024 1 1, Val.str "Income", Val.str "Food",
            Val.str "x", Val.num 5]]⟩ r "Category" ≠ Val.na) :=
  ⟨by decide,
   C9_category_aggregation
     ⟨canonCols, [[Val.date 2024 1 1, Val.str "Income", Val.str "Food", Val.str "x",
       Val.num 5]]⟩ (by decide)⟩

/-! ## Claim C4: the schema check of the normalizer -/

/-- C4: the normalizer fails exactly when the lowercased columns lack
`date` or `amount`; the failure is the fixed schema message (which names
both required columns, hence the missing one(s)), no table is produced,
and no other error is ever returned. -/
theorem C4_schema_error (raw : DataFrame) :
    (analyze_uploaded_file raw = Except.error canonMsg ↔
      ("date" ∉ (lowerColsDF raw).cols ∨ "amount" ∉ (lowerColsDF raw).cols)) ∧
    (∀ e, analyze_uploaded_file raw = Except.error e → e = canonMsg) ∧
    occursStr "Date" canonMsg = true ∧ occursStr "Amount" canonMsg = true := by
  refine ⟨?_, ?_, by decide, by decide⟩
  · unfold analyze_uploaded_file
    split
    next hc =>
      constructor
      · intro he
        exact Except.noConfusion he
      · intro hm
        rcases hm with hm | hm
        · exact absurd hc.1 hm
        · exact absurd hc.2 hm
    next hc =>
      constructor
      · intro _
        exact not_and_or.mp hc
      · intro _
        rfl
  · intro e he
    unfold analyze_uploaded_file at he
    split at he
    · exact Except.noConfusion he
    · cases he
      rfl

theorem C4_schema_error_witness :
    analyze_uploaded_file ⟨["date", "value"], [[Val.str "2024-01-01", Val.str "5"]]⟩ =
        Except.error canonMsg ∧ canonMsg = canonMsg :=
  ⟨(C4_schema_error ⟨["date", "value"], [[Val.str "2024-01-01", Val.str "5"]]⟩).1.mpr
     (Or.inr (by decide)),
   (C4_schema_error ⟨["date", "value"], [[Val.str "2024-01-01", Val.str "5"]]⟩).2.1 canonMsg
     ((C4_schema_error ⟨["date", "value"], [[Val.str "2024-01-01", Val.str "5"]]⟩).1.mpr
       (Or.inr (by decide)))⟩

/-! ## DataFrame operation lemmas for the normalizer pipeline -/

/-- All rows fit inside the column list (read_csv produces rectangular
frames; `≤` is all the pipeline needs). -/
def rowsFit (df : DataFrame) : Prop :=
  ∀ r ∈ df.rows, r.length ≤ df.cols.length

theorem setAt_length (w : Val) (i : Nat) (r : List Val) :
    (setAt w i r).length = r.length := by
  induction r generalizing i with
  | nil => cases i <;> rfl
  | cons v vs ih =>
    cases i with
    | zero => rfl
    | succ j => simp only [setAt, List.length_cons, ih]

theorem getVal_eq_some (df : DataFrame) (r : List Val) (c : String) (i : Nat)
    (h : colIdx df.cols c = some i) : getVal df r c = nthD Val.na r i := by
  simp [getVal, h]

theorem getVal_eq_none (df : DataFrame) (r : List Val) (c : String)
    (h : colIdx df.cols c = none) : getVal df r c = Val.na := by
  simp [getVal, h]

theorem colIdx_mem (cols : List String) (c : String) (i : Nat)
    (h : colIdx cols c = some i) : c ∈ cols := by
  by_contra hn
  rw [(colIdx_eq_none cols c).mpr hn] at h
  cases h

theorem mapCol_cols (df : DataFrame) (c : String) (f : Val → Val) :
    (mapCol df c f).cols = df.cols := by
  cases hc : colIdx df.cols c <;> simp [mapCol, hc]

theorem getVal_renameCols (df : DataFrame) (f : String → String) (a b : String)
    (r : List Val) (h : ∀ x ∈ df.cols, (f x = b ↔ x = a)) :
    getVal (renameCols df f) r b = getVal df r a := by
  unfold getVal renameCols
  rw [colIdx_map_iff df.cols f a b h]

theorem setColWith_rows_length (df : DataFrame) (c : String) (g : List Val → Val) :
    (setColWith df c g).rows.length = df.rows.length := by
  cases hc : colIdx df.cols c <;> simp [setColWith, hc]

theorem setColWith_cols (df : DataFrame) (c : String) (g : List Val → Val) :
    (setColWith df c g).cols = df.cols ∨ (setColWith df c g).cols = df.cols ++ [c] := by
  cases hc : colIdx df.cols c <;> simp [setColWith, hc]

theorem setColWith_mem_self (df : DataFrame) (c : String) (g : List Val → Val) :
    c ∈ (setColWith df c g).cols := by
  cases hc : colIdx df.cols c with
  | some i => simpa [setColWith, hc] using colIdx_mem df.cols c i hc
  | none => simp [setColWith, hc]

theorem setColWith_mem_mono (df : DataFrame) (c : String) (g : List Val → Val)
    (x : String) (hx : x ∈ df.cols) : x ∈ (setColWith df c g).cols := by
  cases hc : colIdx df.cols c <;> simp [setColWith, hc, List.mem_append, hx]

theorem setColWith_mem_inv (df : DataFrame) (c : String) (g : List Val → Val)
    (x : String) (hx : x ∈ (setColWith df c g).cols) : x ∈ df.cols ∨ x = c := by
  cases hc : colIdx df.cols c with
  | some i => exact Or.inl (by simpa [setColWith, hc] using hx)
  | none => simpa [setColWith, hc, List.mem_append] using hx

theorem setColWith_fit (df : DataFrame) (c : String) (g : List Val → Val)
    (hfit : rowsFit df) : rowsFit (setColWith df c g) := by
  cases hc : colIdx df.cols c with
  | some i =>
    simp only [rowsFit, setColWith, hc]
    intro r hr
    obtain ⟨r0, hr0, rfl⟩ := List.mem_map.mp hr
    rw [setAt_length, padTo_length]
    exact Nat.max_le.mpr ⟨Nat.le_refl _, hfit r0 hr0⟩
  | none =>
    simp only [rowsFit, setColWith, hc]
    intro r hr
    obtain ⟨r0, hr0, rfl⟩ := List.mem_map.mp hr
    rw [List.length_append, padTo_length, List.length_append]
    have := hfit r0 hr0
    simp only [List.length_cons, List.length_nil]
    omega

theorem setColWith_nthD_self (df : DataFrame) (c : String) (g : List Val → Val)
    (hfit : rowsFit df) (j : Nat) (hj : j < df.rows.length) :
    getVal (setColWith df c g) (nthD [] (setColWith df c g).rows j) c =
      g (nthD [] df.rows j) := by
  cases hc : colIdx df.cols c with
  | some i =>
    have hrows : (setColWith df c g).rows =
        df.rows.map (fun r => setAt (g r) i (padTo df.cols.length r)) := by
      simp [setColWith, hc]
    have hcols : (setColWith df c g).cols = df.cols := by simp [setColWith, hc]
    rw [getVal_eq_some _ _ _ i (by rw [hcols]; exact hc), hrows,
      nthD_map [] [] _ df.rows j hj]
    exact setAt_nthD_self _ i _
      (lt_of_lt_of_le (colIdx_lt _ _ _ hc) (by rw [padTo_length]; exact Nat.le_max_left _ _))
  | none =>
    have hrows : (setColWith df c g).rows =
        df.rows.map (fun r => padTo df.cols.length r ++ [g r]) := by
      simp [setColWith, hc]
    have hcols : (setColWith df c g).cols = df.cols ++ [c] := by simp [setColWith, hc]
    rw [getVal_eq_some _ _ _ df.cols.length
        (by rw [hcols]; exact colIdx_append_self df.cols c hc),
      hrows, nthD_map [] [] _ df.rows j hj]
    have hr : nthD [] df.rows j ∈ df.rows := nthD_mem [] df.rows j hj
    have hlen : (padTo df.cols.length (nthD [] df.rows j)).length = df.cols.length := by
      rw [padTo_length]
      exact Nat.max_eq_left (hfit _ hr)
    have hfin := nthD_append_right_self Val.na
      (padTo df.cols.length (nthD [] df.rows j)) (g (nthD [] df.rows j))
    rw [hlen] at hfin
    exact hfin

theorem setColWith_nthD_other (df : DataFrame) (c : String) (g : List Val → Val)
    (c2 : String) (hne : c2 ≠ c) (j : Nat) (hj : j < df.rows.length) :
    getVal (setColWith df c g) (nthD [] (setColWith df c g).rows j) c2 =
      getVal df (nthD [] df.rows j) c2 := by
  cases hc : colIdx df.cols c with
  | some i =>
    have hrows : (setColWith df c g).rows =
        df.rows.map (fun r => setAt (g r) i (padTo df.cols.length r)) := by
      simp [setColWith, hc]
    have hcols : (setColWith df c g).cols = df.cols := by simp [setColWith, hc]
    cases hc2 : colIdx df.cols c2 with
    | some k =>
      rw [getVal_eq_some _ _ _ k (by rw [hcols]; exact hc2),
        getVal_eq_some df _ _ k hc2, hrows, nthD_map [] [] _ df.rows j hj,
        setAt_nthD_ne _ i k _ (colIdx_ne df.cols c2 c k i hc2 hc hne), padTo_nthD]
    | none =>
      rw [getVal_eq_none _ _ _ (by rw [hcols]; exact hc2), getVal_eq_none df _ _ hc2]
  | none =>
    have hrows : (setColWith df c g).rows =
        df.rows.map (fun r => padTo df.cols.length r ++ [g r]) := by
      simp [setColWith, hc]
    have hcols : (setColWith df c g).cols = df.cols ++ [c] := by simp [setColWith, hc]
    have hcid : colIdx (df.cols ++ [c]) c2 = colIdx df.cols c2 :=
      colIdx_append_ne df.cols c2 c hne
    cases hc2 : colIdx df.cols c2 with
    | some k =>
      rw [getVal_eq_some _ _ _ k (by rw [hcols, hcid]; exact hc2),
        getVal_eq_some df _ _ k hc2, hrows, nthD_map [] [] _ df.rows j hj]
      have hk : k < (padTo df.cols.length (nthD [] df.rows j)).length := by
        rw [padTo_length]
        exact lt_of_lt_of_le (colIdx_lt _ _ _ hc2) (Nat.le_max_left _ _)
      rw [nthD_append_left _ _ _ k hk, padTo_nthD]
    | none =>
      rw [getVal_eq_none _ _ _ (by rw [hcols, hcid]; exact hc2),
        getVal_eq_none df _ _ hc2]

theorem filter_over_map {α β : Type} (m : α → β) (p : β → Bool) (l : List α) :
    (l.map m).filter p = (l.filter (fun x => p (m x))).map m := by
  induction l with
  | nil => rfl
  | cons a t ih =>
    simp only [List.map_cons, List.filter_cons]
    by_cases h : p (m a) <;> simp [h, ih]

theorem coerceNum_shape (v : Val) :
    coerceNum v = Val.na ∨ ∃ q, coerceNum v = Val.num q := by
  cases v with
  | na => exact Or.inl rfl
  | num q => exact Or.inr ⟨q, rfl⟩
  | str s =>
    simp only [coerceNum]
    cases parseRat s with
    | none => exact Or.inl rfl
    | some q => exact Or.inr ⟨q, rfl⟩
  | date y m d => exact Or.inl rfl

/-! ## Renaming lemmas -/

theorem canonRename_iff_self (c : String) (h1 : c ≠ "date") (h2 : c ≠ "amount")
    (h3 : c ≠ "Date") (h4 : c ≠ "Amount") (x : String) : canonRename x = c ↔ x = c := by
  unfold canonRename
  split
  next hx =>
    subst hx
    exact iff_of_false (fun hh => h3 hh.symm) (fun hh => h1 hh.symm)
  next hx =>
    split
    next hy =>
      subst hy
      exact iff_of_false (fun hh => h4 hh.symm) (fun hh => h2 hh.symm)
    next hy => exact Iff.rfl

theorem lower_iff_date (raw : DataFrame) :
    ∀ x ∈ (lowerColsDF raw).cols, (canonRename x = "Date" ↔ x = "date") := by
  intro x hx
  obtain ⟨y, _, rfl⟩ := List.mem_map.mp hx
  unfold canonRename
  split
  next hd => exact iff_of_true rfl hd
  next hd =>
    split
    next ha => exact iff_of_false (by decide) hd
    next ha => exact iff_of_false (lower_ne_Date y) hd

theorem lower_iff_amount (raw : DataFrame) :
    ∀ x ∈ (lowerColsDF raw).cols, (canonRename x = "Amount" ↔ x = "amount") := by
  intro x hx
  obtain ⟨y, _, rfl⟩ := List.mem_map.mp hx
  unfold canonRename
  split
  next hd => exact iff_of_false (by decide) (by rw [hd]; decide)
  next hd =>
    split
    next ha => exact iff_of_true rfl ha
    next ha => exact iff_of_false (lower_ne_Amount y) ha

theorem catRename_iff_self (c : String) (h1 : c ≠ "category") (h2 : c ≠ "Category")
    (x : String) : catRename x = c ↔ x = c := by
  unfold catRename
  split
  next hx =>
    subst hx
    exact iff_of_false (fun hh => h2 hh.symm) (fun hh => h1 hh.symm)
  next hx => exact Iff.rfl

theorem catRename_ne_category (x : String) : catRename x ≠ "category" := by
  unfold catRename
  split
  · decide
  next h => exact h

/-! ## The rows surviving the normalizer's coercion-and-drop step -/

/-- A raw uploaded row survives `dropna(subset=["date", "amount"])` when both
its date and its amount cell coerce successfully. -/
def survivorsB (raw : DataFrame) (r : List Val) : Bool :=
  !(isNa (coerceDate (getVal (lowerColsDF raw) r "date"))) &&
    !(isNa (coerceNum (getVal (lowerColsDF raw) r "amount")))

/-- The uploaded rows surviving the coercion-and-drop step, with their
original cell values. -/
def survivors (raw : DataFrame) : List (List Val) :=
  raw.rows.filter (survivorsB raw)

theorem keep_eq_survivorsB (raw : DataFrame) (iD iA : Nat)
    (hiD : colIdx (lowerColsDF raw).cols "date" = some iD)
    (hiA : colIdx (lowerColsDF raw).cols "amount" = some iA)
    (hne : iD ≠ iA) (rows2 : List (List Val)) (r : List Val) :
    keepRowB ⟨(lowerColsDF raw).cols, rows2⟩ ["date", "amount"]
      (modAt coerceNum iA (modAt coerceDate iD r)) = survivorsB raw r := by
  unfold keepRowB survivorsB getVal
  simp only [List.all_cons, List.all_nil, Bool.and_true, hiD, hiA]
  rw [modAt_nthD_ne coerceNum iA iD _ hne,
    modAt_nthD_self coerceDate iD r rfl,
    modAt_nthD_self coerceNum iA _ rfl,
    modAt_nthD_ne coerceDate iD iA r (Ne.symm hne)]

theorem getVal_coerced_other (L : DataFrame) (iD iA : Nat)
    (hiD : colIdx L.cols "date" = some iD) (hiA : colIdx L.cols "amount" = some iA)
    (c : String) (hc1 : c ≠ "date") (hc2 : c ≠ "amount") (r : List Val) :
    getVal L (modAt coerceNum iA (modAt coerceDate iD r)) c = getVal L r c := by
  cases hk : colIdx L.cols c with
  | some k =>
    rw [getVal_eq_some L _ c k hk, getVal_eq_some L r c k hk,
      modAt_nthD_ne coerceNum iA k _ (colIdx_ne L.cols c "amount" k iA hk hiA hc2),
      modAt_nthD_ne coerceDate iD k r (colIdx_ne L.cols c "date" k iD hk hiD hc1)]
  | none => rw [getVal_eq_none L _ c hk, getVal_eq_none L r c hk]

theorem mem_append_singleton_ne (l : List String) (c d : String) (h : c ≠ d) :
    c ∈ l ++ [d] ↔ c ∈ l := by
  simp [List.mem_append, h]

theorem mem_iff_of_colIdx_eq (cols1 cols2 : List String) (c1 c2 : String)
    (h : colIdx cols1 c1 = colIdx cols2 c2) : c1 ∈ cols1 ↔ c2 ∈ cols2 := by
  constructor
  · intro hm
    obtain ⟨i, hi⟩ := colIdx_of_mem cols1 c1 hm
    exact colIdx_mem cols2 c2 i (h ▸ hi)
  · intro hm
    obtain ⟨i, hi⟩ := colIdx_of_mem cols2 c2 hm
    exact colIdx_mem cols1 c1 i (h.trans hi)

theorem setColWith_mem_iff_ne (df : DataFrame) (c : String) (g : List Val → Val)
    (x : String) (hx : x ≠ c) : x ∈ (setColWith df c g).cols ↔ x ∈ df.cols := by
  rcases setColWith_cols df c g with h | h <;> rw [h]
  exact mem_append_singleton_ne df.cols x c hx

theorem renameCols_fit (df : DataFrame) (f : String → String) (hfit : rowsFit df) :
    rowsFit (renameCols df f) := by
  intro r hr
  simpa [renameCols] using hfit r hr

/-- The column names reaching the category step: the canonical renames of the
lowercased upload columns, plus the derived `Type`. -/
theorem cols4_char (raw : DataFrame) :
    ∀ x ∈ ((lowerColsDF raw).cols.map canonRename),
      x = "Date" ∨ x = "Amount" ∨ ∃ y, x = lowerStr y := by
  intro x hx
  obtain ⟨z, hz, rfl⟩ := List.mem_map.mp hx
  obtain ⟨y, _, rfl⟩ := List.mem_map.mp hz
  unfold canonRename
  split
  · exact Or.inl rfl
  · split
    · exact Or.inr (Or.inl rfl)
    · exact Or.inr (Or.inr ⟨y, rfl⟩)

theorem char_iff_Category (x : String)
    (hx : x = "Date" ∨ x = "Amount" ∨ x = "Type" ∨ ∃ y, x = lowerStr y) :
    catRename x = "Category" ↔ x = "category" := by
  rcases hx with rfl | rfl | rfl | ⟨y, rfl⟩
  · exact iff_of_false (by decide) (by decide)
  · exact iff_of_false (by decide) (by decide)
  · exact iff_of_false (by decide) (by decide)
  · by_cases hxc : lowerStr y = "category"
    · rw [hxc]
      exact iff_of_true rfl rfl
    · unfold catRename
      rw [if_neg hxc]
      exact iff_of_false (lower_ne_Category y) hxc

/-- Behaviour of the category step, for any frame whose columns validate the
`category -> Category` renaming (supplied as the `hiff` hypothesis of the
present-case conjunct). -/
theorem stageCat_spec (df : DataFrame) (hfit : rowsFit df) :
    (stageCat df).rows.length = df.rows.length ∧
    rowsFit (stageCat df) ∧
    "Category" ∈ (stageCat df).cols ∧
    (∀ x, x ≠ "category" → x ≠ "Category" →
      (x ∈ (stageCat df).cols ↔ x ∈ df.cols)) ∧
    (∀ c2, c2 ≠ "category" → c2 ≠ "Category" → ∀ j, j < df.rows.length →
      getVal (stageCat df) (nthD [] (stageCat df).rows j) c2 =
        getVal df (nthD [] df.rows j) c2) ∧
    ("category" ∈ df.cols →
      (∀ x ∈ df.cols, (catRename x = "Category" ↔ x = "category")) →
      ∀ j, j < df.rows.length →
        getVal (stageCat df) (nthD [] (stageCat df).rows j) "Category" =
          getVal df (nthD [] df.rows j) "category") ∧
    ("category" ∉ df.cols →
      ∀ j, j < df.rows.length →
        getVal (stageCat df) (nthD [] (stageCat df).rows j) "Category" =
          Val.str "Uncategorized") := by
  by_cases hcat : "category" ∈ df.cols
  · rw [stageCat, if_pos hcat]
    refine ⟨rfl, renameCols_fit df catRename hfit, ?_, ?_, ?_, ?_, ?_⟩
    · exact List.mem_map.mpr ⟨"category", hcat, rfl⟩
    · intro x hx1 hx2
      exact mem_iff_of_colIdx_eq _ _ x x
        (colIdx_map_iff df.cols catRename x x (fun z _ => catRename_iff_self x hx1 hx2 z))
    · intro c2 hc1 hc2 j hj
      exact getVal_renameCols df catRename c2 c2 _
        (fun z _ => catRename_iff_self c2 hc1 hc2 z)
    · intro _ hiff j hj
      exact getVal_renameCols df catRename "category" "Category" _ hiff
    · intro hnc
      exact absurd hcat hnc
  · rw [stageCat, if_neg hcat]
    refine ⟨setColWith_rows_length df "Category" _, setColWith_fit df "Category" _ hfit,
      setColWith_mem_self df "Category" _, ?_, ?_, ?_, ?_⟩
    · intro x hx1 hx2
      exact setColWith_mem_iff_ne df "Category" _ x hx2
    · intro c2 hc1 hc2 j hj
      exact setColWith_nthD_other df "Category" _ c2 hc2 j hj
    · intro hc
      exact absurd hc hcat
    · intro _ j hj
      exact setColWith_nthD_self df "Category" _ hfit j hj

/-- Behaviour of the description step. -/
theorem stageDesc_spec (df : DataFrame) (hfit : rowsFit df) :
    (stageDesc df).rows.length = df.rows.length ∧
    rowsFit (stageDesc df) ∧
    ("Description" ∈ (stageDesc df).cols ↔
      ("Description" ∈ df.cols ∨ "description" ∉ df.cols)) ∧
    (∀ x, x ≠ "Description" → (x ∈ (stageDesc df).cols ↔ x ∈ df.cols)) ∧
    (∀ c2, c2 ≠ "Description" → ∀ j, j < df.rows.length →
      getVal (stageDesc df) (nthD [] (stageDesc df).rows j) c2 =
        getVal df (nthD [] df.rows j) c2) ∧
    ("description" ∉ df.cols →
      ∀ j, j < df.rows.length →
        getVal (stageDesc df) (nthD [] (stageDesc df).rows j) "Description" =
          Val.str "") := by
  by_cases hd : "description" ∈ df.cols
  · rw [stageDesc, if_pos hd]
    refine ⟨rfl, hfit, ?_, fun x _ => Iff.rfl, fun c2 _ j hj => rfl, fun hnd => absurd hd hnd⟩
    constructor
    · intro hm
      exact Or.inl hm
    · intro hm
      rcases hm with hm | hm
      · exact hm
      · exact absurd hd hm
  · rw [stageDesc, if_neg hd]
    refine ⟨setColWith_rows_length df "Description" _,
      setColWith_fit df "Description" _ hfit, ?_, ?_, ?_, ?_⟩
    · exact iff_of_true (setColWith_mem_self df "Description" _) (Or.inr hd)
    · intro x hx
      exact setColWith_mem_iff_ne df "Description" _ x hx
    · intro c2 hc2 j hj
      exact setColWith_nthD_other df "Description" _ c2 hc2 j hj
    · intro _ j hj
      exact setColWith_nthD_self df "Description" _ hfit j hj

/-- Normal form of the pipeline through coercion, drop and renaming: the
canonical renames of the lowercased columns, over the surviving rows with
their date and amount cells coerced. -/
theorem stage4_spec (raw : DataFrame) (iD iA : Nat)
    (hiD : colIdx (lowerColsDF raw).cols "date" = some iD)
    (hiA : colIdx (lowerColsDF raw).cols "amount" = some iA) :
    stageRename (stageDrop (stageCoerce (lowerColsDF raw))) =
      ⟨(lowerColsDF raw).cols.map canonRename,
       (survivors raw).map (fun r => modAt coerceNum iA (modAt coerceDate iD r))⟩ := by
  have hne : iD ≠ iA := colIdx_ne _ "date" "amount" iD iA hiD hiA (by decide)
  have e1 : mapCol (lowerColsDF raw) "date" coerceDate =
      ⟨(lowerColsDF raw).cols, (lowerColsDF raw).rows.map (modAt coerceDate iD)⟩ := by
    simp [mapCol, hiD]
  have e2 : stageCoerce (lowerColsDF raw) =
      ⟨(lowerColsDF raw).cols,
       (lowerColsDF raw).rows.map (fun r => modAt coerceNum iA (modAt coerceDate iD r))⟩ := by
    unfold stageCoerce
    rw [e1]
    simp only [mapCol, hiA, List.map_map]
    rfl
  unfold stageRename stageDrop
  rw [e2]
  unfold dropnaSubset renameCols
  dsimp only
  congr 1
  rw [filter_over_map]
  unfold survivors
  congr 1
  exact List.filter_congr (fun r _ => keep_eq_survivorsB raw iD iA hiD hiA hne _ r)

/-- Full behaviour of a successful `analyze_uploaded_file`: row count, the
canonical `Category` field, the `Description` column (only created when no
description column was uploaded), and, per surviving row, the numeric
`Amount`, the sign-derived `Type`, and the `Category`/`Description`/
`description` cell values. -/
theorem analyze_ok_spec (raw out : DataFrame) (hfit : rowsFit raw)
    (h : analyze_uploaded_file raw = Except.ok out) :
    out.rows.length = (survivors raw).length ∧
    "Category" ∈ out.cols ∧
    ("Description" ∈ out.cols ↔ "description" ∉ (lowerColsDF raw).cols) ∧
    ∀ j, j < out.rows.length →
      (∃ q : Rat,
        getVal out (nthD [] out.rows j) "Amount" = Val.num q ∧
        getVal out (nthD [] out.rows j) "Type" =
          Val.str (if 0 ≤ q then "Income" else "Expense")) ∧
      ("category" ∈ (lowerColsDF raw).cols →
        getVal out (nthD [] out.rows j) "Category" =
          getVal (lowerColsDF raw) (nthD [] (survivors raw) j) "category") ∧
      ("category" ∉ (lowerColsDF raw).cols →
        getVal out (nthD [] out.rows j) "Category" = Val.str "Uncategorized") ∧
      ("description" ∈ (lowerColsDF raw).cols →
        getVal out (nthD [] out.rows j) "description" =
          getVal (lowerColsDF raw) (nthD [] (survivors raw) j) "description") ∧
      ("description" ∉ (lowerColsDF raw).cols →
        getVal out (nthD [] out.rows j) "Description" = Val.str "") := by
  unfold analyze_uploaded_file at h
  split at h
  case isFalse => exact Except.noConfusion h
  case isTrue hda =>
  obtain ⟨iD, hiD⟩ := colIdx_of_mem _ _ hda.1
  obtain ⟨iA, hiA⟩ := colIdx_of_mem _ _ hda.2
  injection h with hout
  subst hout
  have hne : iD ≠ iA := colIdx_ne _ "date" "amount" iD iA hiD hiA (by decide)
  have h4 := stage4_spec raw iD iA hiD hiA
  rw [h4]
  set m : List Val → List Val := fun r => modAt coerceNum iA (modAt coerceDate iD r) with hm
  set df4 : DataFrame :=
    ⟨(lowerColsDF raw).cols.map canonRename, (survivors raw).map m⟩ with hdf4
  -- facts about df4
  have hlen4 : df4.rows.length = (survivors raw).length := by
    rw [hdf4]
    exact List.length_map _ _
  have hfit4 : rowsFit df4 := by
    intro r hr
    rw [hdf4] at hr
    obtain ⟨r0, hr0, rfl⟩ := List.mem_map.mp hr
    have hr0raw : r0 ∈ raw.rows := (List.mem_filter.mp hr0).1
    have hl := hfit r0 hr0raw
    rw [hdf4, hm]
    simp only [modAt_length, List.length_map, lowerColsDF]
    exact hl
  have hAm4 : colIdx df4.cols "Amount" = some iA := by
    rw [hdf4]
    show colIdx ((lowerColsDF raw).cols.map canonRename) "Amount" = some iA
    rw [colIdx_map_iff _ canonRename "amount" "Amount" (lower_iff_amount raw)]
    exact hiA
  have hrow4 : ∀ j, j < (survivors raw).length →
      nthD [] df4.rows j = m (nthD [] (survivors raw) j) := by
    intro j hj
    rw [hdf4]
    exact nthD_map [] [] m _ j hj
  have hAq : ∀ j, j < (survivors raw).length → ∃ q : Rat,
      getVal df4 (nthD [] df4.rows j) "Amount" = Val.num q := by
    intro j hj
    have hsj : nthD [] (survivors raw) j ∈ survivors raw := nthD_mem [] _ j hj
    have hsb : survivorsB raw (nthD [] (survivors raw) j) = true :=
      (List.mem_filter.mp hsj).2
    unfold survivorsB at hsb
    rw [Bool.and_eq_true] at hsb
    have hnn := hsb.2
    rw [getVal_eq_some _ _ _ iA hiA] at hnn
    rw [hrow4 j hj, getVal_eq_some df4 _ _ iA hAm4, hm]
    simp only
    rw [modAt_nthD_self coerceNum iA _ rfl,
      modAt_nthD_ne coerceDate iD iA _ (Ne.symm hne)]
    rcases coerceNum_shape (nthD Val.na (nthD [] (survivors raw) j) iA) with hsh | ⟨q, hq⟩
    · rw [hsh] at hnn
      exact absurd hnn (by decide)
    · exact ⟨q, hq⟩
  have hother4 : ∀ (c : String), c ≠ "date" → c ≠ "amount" → c ≠ "Date" → c ≠ "Amount" →
      ∀ j, j < (survivors raw).length →
      getVal df4 (nthD [] df4.rows j) c =
        getVal (lowerColsDF raw) (nthD [] (survivors raw) j) c := by
    intro c h1 h2 h3 h4c j hj
    have hidx : colIdx df4.cols c = colIdx (lowerColsDF raw).cols c := by
      rw [hdf4]
      exact colIdx_map_iff _ canonRename c c
        (fun x _ => canonRename_iff_self c h1 h2 h3 h4c x)
    rw [hrow4 j hj, hm]
    simp only
    cases hk : colIdx (lowerColsDF raw).cols c with
    | some k =>
      rw [getVal_eq_some df4 _ _ k (hidx.trans hk), getVal_eq_some _ _ _ k hk,
        modAt_nthD_ne coerceNum iA k _ (colIdx_ne _ c "amount" k iA hk hiA h2),
        modAt_nthD_ne coerceDate iD k _ (colIdx_ne _ c "date" k iD hk hiD h1)]
    | none =>
      rw [getVal_eq_none df4 _ _ (hidx.trans hk), getVal_eq_none _ _ _ hk]
  have hmem4 : ∀ (c : String), c ≠ "date" → c ≠ "amount" → c ≠ "Date" → c ≠ "Amount" →
      (c ∈ df4.cols ↔ c ∈ (lowerColsDF raw).cols) := by
    intro c h1 h2 h3 h4c
    rw [hdf4]
    exact mem_iff_of_colIdx_eq _ _ c c
      (colIdx_map_iff _ canonRename c c (fun x _ => canonRename_iff_self c h1 h2 h3 h4c x))
  -- stage 5 (the derived Type column)
  set df5 : DataFrame := stageType df4 with hdf5
  have hfit5 : rowsFit df5 := setColWith_fit df4 "Type" _ hfit4
  have hlen5 : df5.rows.length = df4.rows.length := setColWith_rows_length df4 "Type" _
  have hT5 : ∀ j, j < df4.rows.length →
      getVal df5 (nthD [] df5.rows j) "Type" =
        deriveType (getVal df4 (nthD [] df4.rows j) "Amount") :=
    fun j hj => setColWith_nthD_self df4 "Type" _ hfit4 j hj
  have hO5 : ∀ c2, c2 ≠ "Type" → ∀ j, j < df4.rows.length →
      getVal df5 (nthD [] df5.rows j) c2 = getVal df4 (nthD [] df4.rows j) c2 :=
    fun c2 hc2 j hj => setColWith_nthD_other df4 "Type" _ c2 hc2 j hj
  have hmem5 : ∀ x, x ≠ "Type" → (x ∈ df5.cols ↔ x ∈ df4.cols) :=
    fun x hx => setColWith_mem_iff_ne df4 "Type" _ x hx
  have hinv5 : ∀ x ∈ df5.cols, x ∈ df4.cols ∨ x = "Type" :=
    fun x hx => setColWith_mem_inv df4 "Type" _ x hx
  have hcatmem : ("category" ∈ df5.cols ↔ "category" ∈ (lowerColsDF raw).cols) :=
    (hmem5 "category" (by decide)).trans
      (hmem4 "category" (by decide) (by decide) (by decide) (by decide))
  have hdescmem5 : ("description" ∈ df5.cols ↔ "description" ∈ (lowerColsDF raw).cols) :=
    (hmem5 "description" (by decide)).trans
      (hmem4 "description" (by decide) (by decide) (by decide) (by decide))
  have hDescL : "Description" ∉ (lowerColsDF raw).cols := by
    intro hmm
    obtain ⟨y, _, hy⟩ := List.mem_map.mp hmm
    exact lower_ne_Description y hy
  have hDescmem5 : "Description" ∉ df5.cols := fun hmm =>
    hDescL (((hmem5 "Description" (by decide)).trans
      (hmem4 "Description" (by decide) (by decide) (by decide) (by decide))).mp hmm)
  have hiffC : ∀ x ∈ df5.cols, (catRename x = "Category" ↔ x = "category") := by
    intro x hx
    rcases hinv5 x hx with hx4 | rfl
    · rw [hdf4] at hx4
      rcases cols4_char raw x hx4 with hcc | hcc | hcc
      · exact char_iff_Category x (Or.inl hcc)
      · exact char_iff_Category x (Or.inr (Or.inl hcc))
      · exact char_iff_Category x (Or.inr (Or.inr (Or.inr hcc)))
    · exact char_iff_Category "Type" (Or.inr (Or.inr (Or.inl rfl)))
  -- stage 6 (Category) and stage 7 (Description)
  obtain ⟨hlen6, hfit6, hCatmem6, hmem6, hO6, hcatA, hcatB⟩ := stageCat_spec df5 hfit5
  obtain ⟨hlen7, hfit7, hDmem7, hmem7, hO7, hD7⟩ := stageDesc_spec (stageCat df5) hfit6
  have hD6 : "Description" ∉ (stageCat df5).cols := fun hmm =>
    hDescmem5 ((hmem6 "Description" (by decide) (by decide)).mp hmm)
  have hd6 : ("description" ∈ (stageCat df5).cols ↔
      "description" ∈ (lowerColsDF raw).cols) :=
    (hmem6 "description" (by decide) (by decide)).trans hdescmem5
  refine ⟨?_, ?_, ?_, ?_⟩
  · rw [hlen7, hlen6, hlen5, hlen4]
  · exact (hmem7 "Category" (by decide)).mpr hCatmem6
  · constructor
    · intro hmm
      rcases hDmem7.mp hmm with hin | hnin
      · exact absurd hin hD6
      · exact fun hc => hnin (hd6.mpr hc)
    · intro hc
      exact hDmem7.mpr (Or.inr (fun hdd => hc (hd6.mp hdd)))
  · intro j hj
    have hj6 : j < (stageCat df5).rows.length := by rw [← hlen7]; exact hj
    have hj5 : j < df5.rows.length := by rw [← hlen6]; exact hj6
    have hj4 : j < df4.rows.length := by rw [← hlen5]; exact hj5
    have hjs : j < (survivors raw).length := by rw [← hlen4]; exact hj4
    refine ⟨?_, ?_, ?_, ?_, ?_⟩
    · obtain ⟨q, hq⟩ := hAq j hjs
      refine ⟨q, ?_, ?_⟩
      · rw [hO7 "Amount" (by decide) j hj6, hO6 "Amount" (by decide) (by decide) j hj5,
          hO5 "Amount" (by decide) j hj4, hq]
      · rw [hO7 "Type" (by decide) j hj6, hO6 "Type" (by decide) (by decide) j hj5,
          hT5 j hj4, hq]
        by_cases h0 : 0 ≤ q <;> simp [deriveType, h0]
    · intro hc
      rw [hO7 "Category" (by decide) j hj6, hcatA (hcatmem.mpr hc) hiffC j hj5,
        hO5 "category" (by decide) j hj4]
      exact hother4 "category" (by decide) (by decide) (by decide) (by decide) j hjs
    · intro hc
      rw [hO7 "Category" (by decide) j hj6,
        hcatB (fun hmm => hc (hcatmem.mp hmm)) j hj5]
    · intro hc
      rw [hO7 "description" (by decide) j hj6,
        hO6 "description" (by decide) (by decide) j hj5,
        hO5 "description" (by decide) j hj4]
      exact hother4 "description" (by decide) (by decide) (by decide) (by decide) j hjs
    · intro hc
      exact hD7 (fun hdd => hc (hd6.mp hdd)) j hj6

/-! ## Claim C3: Type is derived from the sign of Amount -/

/-- C3: for every upload accepted by the normalizer and every surviving row,
the derived `Type` field is `"Income"` when the row's `Amount` is ≥ 0 and
`"Expense"` when it is < 0; the statement quantifies over arbitrary uploaded
column sets, so it holds regardless of any pre-existing type column (the
`Type` cell is always the sign-derived one). -/
theorem C3_type_from_sign (raw out : DataFrame) (hfit : rowsFit raw)
    (h : analyze_uploaded_file raw = Except.ok out) (r : List Val) (hr : r ∈ out.rows) :
    ∃ q : Rat, getVal out r "Amount" = Val.num q ∧
      getVal out r "Type" = Val.str (if 0 ≤ q then "Income" else "Expense") := by
  obtain ⟨j, hj, hnth⟩ := mem_nthD [] out.rows r hr
  obtain ⟨q, hq1, hq2⟩ := ((analyze_ok_spec raw out hfit h).2.2.2 j hj).1
  exact ⟨q, by rw [← hnth]; exact hq1, by rw [← hnth]; exact hq2⟩

/-- The spec's own example upload: columns `DATE, AMOUNT`, one row
`2024-02-01, -50`; the upload also carries no category/description. -/
def exC3raw : DataFrame := ⟨["DATE", "AMOUNT"], [[Val.str "2024-02-01", Val.str "-50"]]⟩

/-- The normalized result of `exC3raw`. -/
def exC3out : DataFrame :=
  ⟨["Date", "Amount", "Type", "Category", "Description"],
   [[Val.date 2024 2 1, Val.num (-50), Val.str "Expense", Val.str "Uncategorized",
     Val.str ""]]⟩

theorem C3_type_from_sign_witness :
    rowsFit exC3raw ∧
    analyze_uploaded_file exC3raw = Except.ok exC3out ∧
    [Val.date 2024 2 1, Val.num (-50), Val.str "Expense", Val.str "Uncategorized",
      Val.str ""] ∈ exC3out.rows ∧
    ∃ q : Rat,
      getVal exC3out [Val.date 2024 2 1, Val.num (-50), Val.str "Expense",
        Val.str "Uncategorized", Val.str ""] "Amount" = Val.num q ∧
      getVal exC3out [Val.date 2024 2 1, Val.num (-50), Val.str "Expense",
        Val.str "Uncategorized", Val.str ""] "Type" =
          Val.str (if 0 ≤ q then "Income" else "Expense") :=
  ⟨by unfold rowsFit; decide, by rfl, by decide,
   C3_type_from_sign exC3raw exC3out (by unfold rowsFit; decide) (by rfl) _ (by decide)⟩

/-! ## Claim C6 (corrected): Category and Description normalization -/

/-- C6 as stated is false in its description half: uploading a table with a
`description` column yields a table whose column is still the lowercased
`description` — no canonical `Description` field is created and the claim's
"appears under the canonical Description field" fails. -/
theorem C6_counterexample :
    analyze_uploaded_file ⟨["date", "amount", "description"],
        [[Val.str "2024-01-05", Val.str "7", Val.str "note"]]⟩ =
      Except.ok ⟨["Date", "Amount", "description", "Type", "Category"],
        [[Val.date 2024 1 5, Val.num 7, Val.str "note", Val.str "Income",
          Val.str "Uncategorized"]]⟩ ∧
    "Description" ∉ (["Date", "Amount", "description", "Type", "Category"] : List String) :=
  ⟨by rfl, by decide⟩

/-- C6 amended: for every accepted upload, `Category` behaves as claimed
(present in any casing: renamed to canonical `Category` with the uploaded
values passed through; absent: `"Uncategorized"` in every row).  For the
description field, a present description column (any casing) keeps its
values unchanged but under the lowercased name `description`, and no
canonical `Description` column exists in the result; only when the upload
has no description column is a `Description` column created, defaulting to
the empty string in every row. -/
theorem C6_canonical_fields (raw out : DataFrame) (hfit : rowsFit raw)
    (h : analyze_uploaded_file raw = Except.ok out) :
    "Category" ∈ out.cols ∧
    ("category" ∉ (lowerColsDF raw).cols →
      ∀ r ∈ out.rows, getVal out r "Category" = Val.str "Uncategorized") ∧
    ("category" ∈ (lowerColsDF raw).cols →
      out.rows.length = (survivors raw).length ∧
      ∀ j, j < out.rows.length →
        getVal out (nthD [] out.rows j) "Category" =
          getVal (lowerColsDF raw) (nthD [] (survivors raw) j) "category") ∧
    ("description" ∉ (lowerColsDF raw).cols →
      "Description" ∈ out.cols ∧
      ∀ r ∈ out.rows, getVal out r "Description" = Val.str "") ∧
    ("description" ∈ (lowerColsDF raw).cols →
      "Description" ∉ out.cols ∧
      out.rows.length = (survivors raw).length ∧
      ∀ j, j < out.rows.length →
        getVal out (nthD [] out.rows j) "description" =
          getVal (lowerColsDF raw) (nthD [] (survivors raw) j) "description") := by
  obtain ⟨hlen, hCat, hDesc, hrows⟩ := analyze_ok_spec raw out hfit h
  refine ⟨hCat, ?_, ?_, ?_, ?_⟩
  · intro hc r hr
    obtain ⟨j, hj, rfl⟩ := mem_nthD [] out.rows r hr
    exact (hrows j hj).2.2.1 hc
  · intro hc
    exact ⟨hlen, fun j hj => (hrows j hj).2.1 hc⟩
  · intro hc
    refine ⟨hDesc.mpr hc, ?_⟩
    intro r hr
    obtain ⟨j, hj, rfl⟩ := mem_nthD [] out.rows r hr
    exact (hrows j hj).2.2.2.2 hc
  · intro hc
    exact ⟨fun hmm => (hDesc.mp hmm) hc, hlen, fun j hj => (hrows j hj).2.2.2.1 hc⟩

/-- An upload carrying category and description columns in upper casing. -/
def exC6raw : DataFrame :=
  ⟨["DATE", "AMOUNT", "CATEGORY", "DESCRIPTION"],
   [[Val.str "2024-02-01", Val.str "-50", Val.str "Food", Val.str "hi"]]⟩

/-- The normalized result of `exC6raw`. -/
def exC6out : DataFrame :=
  ⟨["Date", "Amount", "Category", "description", "Type"],
   [[Val.date 2024 2 1, Val.num (-50), Val.str "Food", Val.str "hi", Val.str "Expense"]]⟩

theorem C6_canonical_fields_witness :
    rowsFit exC6raw ∧
    analyze_uploaded_file exC6raw = Except.ok exC6out ∧
    "Category" ∈ exC6out.cols :=
  ⟨by unfold rowsFit; decide, by rfl,
   (C6_canonical_fields exC6raw exC6out (by unfold rowsFit; decide) (by rfl)).1⟩
